import Mathlib

/-!
Verification of the cpenn-dfs exporter scripts.

This file gives a shallow embedding of the pure data-transformation kernels of
the Excel-to-JSON exporter scripts (NFL_Exporter.py, MLB_Exporter.py,
NASCAR_Exporter.py) and proves or refutes the specified properties about them.

Conventions of the embedding:
* Python strings are Lean `String`s; `None` is `Option.none`.
* `str.strip()` / `str.lower()` / `str.upper()` are modelled on the ASCII
  fragment (the data the exporters handle is ASCII player/team/header text):
  `Char.toLower` / `Char.toUpper` are exactly CPython's case mapping on the
  basic latin range, and `isPySpace` covers the ASCII whitespace characters
  recognised by `str.strip()` and the regex class `\s`.
* The regex `\d` is modelled as the ASCII digits.
* Excel worksheets are modelled as the lists of already-formatted cell texts
  that the scripts extract from them.
-/

namespace DfsExport

/-! ## Python string primitives (ASCII fragment) -/

/-- ASCII whitespace as recognised by Python `str.strip()` and `\s`:
space, tab, newline, carriage return, vertical tab, form feed. -/
def isPySpace (c : Char) : Bool :=
  c.toNat = 32 || c.toNat = 9 || c.toNat = 10 || c.toNat = 13 || c.toNat = 11 || c.toNat = 12

/-- ASCII decimal digit, the model of the regex class `\d`. -/
def isDig (c : Char) : Bool :=
  48 ≤ c.toNat && c.toNat ≤ 57

/-- Drop leading Python whitespace. -/
def trimL (l : List Char) : List Char := l.dropWhile isPySpace

/-- Python `str.strip()` on a character list: trim the right end
(via reversal), then the left end. -/
def stripList (l : List Char) : List Char := trimL ((trimL l.reverse).reverse)

/-- Python `str.strip()`. -/
def pyStrip (s : String) : String := String.mk (stripList s.toList)

/-- Python `str.lower()` (ASCII fragment; `Char.toLower` is exactly the
CPython mapping on basic latin letters). -/
def pyLower (s : String) : String := String.mk (s.toList.map Char.toLower)

/-- Python `str.upper()` (ASCII fragment). -/
def pyUpper (s : String) : String := String.mk (s.toList.map Char.toUpper)

/-! ## dedup (NFL_Exporter.py lines 97-111, same scheme in NASCAR_Exporter.py 66-94)

`seen` maps a base name to the number of times it has been repeated; a repeat
of `key` is emitted as `key_{seen[key]}`.  The association list is updated by
consing the fresh binding in front, which has the same lookup behaviour as the
Python dict update. -/

/-- Replacement of blank/NaN/unnamed labels by positional names, from the body
of `dedup`: `if s == "" or s.lower() in {"nan","nat"} or
s.lower().startswith("unnamed"): s = f"col_{i+1}"`. -/
def dedupPlaceholder (i : Nat) (s : String) : String :=
  if s = "" || pyLower s = "nan" || pyLower s = "nat" || (pyLower s).startsWith "unnamed" then
    "col_" ++ toString (i + 1)
  else s

/-- The loop of `dedup`, carrying the `seen` dict and the 0-based index `i`. -/
def dedupGo (seen : List (String × Nat)) (i : Nat) : List (Option String) → List String
  | [] => []
  | raw :: rest =>
    let s0 : String := match raw with
      | none => ""
      | some v => pyStrip v
    let s := dedupPlaceholder i s0
    match seen.lookup s with
    | some n => (s ++ "_" ++ toString (n + 1)) :: dedupGo ((s, n + 1) :: seen) (i + 1) rest
    | none => s :: dedupGo ((s, 0) :: seen) (i + 1) rest

/-- `dedup` from NFL_Exporter.py: normalise each raw column name and suffix
repeats with `_k`. -/
def dedup (names : List (Option String)) : List String := dedupGo [] 0 names

/-! ## _key_for (NFL_Exporter.py lines 140-143) -/

/-- `_key_for(player, team)`: lower-cased stripped player, a pipe, and the
upper-cased stripped team. -/
def key_for (player team : String) : String :=
  pyLower (pyStrip player) ++ "|" ++ pyUpper (pyStrip team)

/-! ## Character-level facts for the case/whitespace lemmas -/

/-- `Char.ofNat` round-trips through `toNat` below the surrogate range. -/
theorem toNat_ofNat_valid {n : Nat} (h : n < 55296) : (Char.ofNat n).toNat = n := by
  have hv : n.isValidChar := Or.inl h
  unfold Char.ofNat
  rw [dif_pos hv]
  simp [Char.ofNatAux, Char.toNat, UInt32.toNat]

/-- Lowercasing does not create or destroy whitespace. -/
theorem isPySpace_toLower (c : Char) : isPySpace (Char.toLower c) = isPySpace c := by
  unfold Char.toLower
  dsimp only
  split
  · rename_i h
    have h1 : (Char.ofNat (c.toNat + 32)).toNat = c.toNat + 32 :=
      toNat_ofNat_valid (by omega)
    rw [Bool.eq_iff_iff]
    simp only [isPySpace, Bool.or_eq_true, decide_eq_true_eq, h1]
    omega
  · rfl

/-- The uppercase image of a character depends only on its lowercase image. -/
theorem toUpper_toLower (c : Char) : Char.toUpper (Char.toLower c) = Char.toUpper c := by
  unfold Char.toLower
  dsimp only
  split
  · rename_i h
    have h1 : (Char.ofNat (c.toNat + 32)).toNat = c.toNat + 32 :=
      toNat_ofNat_valid (by omega)
    unfold Char.toUpper
    rw [h1, if_pos (by omega), if_neg (by omega)]
    have h2 : c.toNat + 32 - 32 = c.toNat := by omega
    rw [h2, Char.ofNat_toNat]
  · rfl

/-- Digits are not whitespace. -/
theorem isPySpace_eq_false_of_isDig {c : Char} (h : isDig c = true) : isPySpace c = false := by
  simp only [isDig, Bool.and_eq_true, decide_eq_true_eq] at h
  simp only [isPySpace, Bool.or_eq_true, decide_eq_true_eq]
  simp only [Bool.or_eq_false_iff, decide_eq_false_iff_not]
  omega

/-! ## List-level facts about trimming -/

theorem trimL_append_of_all {ws l : List Char} (h : ∀ c ∈ ws, isPySpace c = true) :
    trimL (ws ++ l) = trimL l := by
  induction ws with
  | nil => rfl
  | cons c ws ih =>
    simp only [List.cons_append, trimL, List.dropWhile_cons, h c (by simp)]
    exact ih (fun d hd => h d (by simp [hd]))

theorem trimL_eq_nil_of_all {ws : List Char} (h : ∀ c ∈ ws, isPySpace c = true) :
    trimL ws = [] :=
  List.dropWhile_eq_nil_iff.mpr h

theorem trimL_append_all_right {a ws : List Char} (hws : ∀ c ∈ ws, isPySpace c = true) :
    trimL (a ++ ws) = match trimL a with
      | [] => ([] : List Char)
      | x :: xs => x :: (xs ++ ws) := by
  induction a with
  | nil =>
    simp only [List.nil_append]
    have : trimL ([] : List Char) = [] := rfl
    rw [this, trimL_eq_nil_of_all hws]
  | cons c a ih =>
    by_cases hc : isPySpace c = true
    · simp only [List.cons_append, trimL, List.dropWhile_cons, hc, if_pos]
      exact ih
    · simp only [List.cons_append, trimL, List.dropWhile_cons,
        Bool.not_eq_true] at hc ⊢
      rw [hc]
      simp

/-- Stripping ignores whitespace-only padding on the right. -/
theorem stripList_append_ws {l ws : List Char} (h : ∀ c ∈ ws, isPySpace c = true) :
    stripList (l ++ ws) = stripList l := by
  unfold stripList
  rw [List.reverse_append, trimL_append_of_all (fun c hc => h c (by simpa using hc))]

/-- Stripping ignores whitespace-only padding on the left. -/
theorem stripList_ws_append {ws l : List Char} (h : ∀ c ∈ ws, isPySpace c = true) :
    stripList (ws ++ l) = stripList l := by
  unfold stripList
  rw [List.reverse_append]
  have hrev : ∀ c ∈ ws.reverse, isPySpace c = true := fun c hc => h c (by simpa using hc)
  rw [trimL_append_all_right hrev]
  cases htl : trimL l.reverse with
  | nil => simp
  | cons x xs =>
    have e1 : (x :: (xs ++ ws.reverse)).reverse = ws ++ (xs.reverse ++ [x]) := by
      simp
    rw [e1, trimL_append_of_all h]
    simp

/-- Trimming commutes with lowercasing. -/
theorem trimL_map_toLower (l : List Char) :
    trimL (l.map Char.toLower) = (trimL l).map Char.toLower := by
  unfold trimL
  have hfun : (isPySpace ∘ Char.toLower) = isPySpace := funext isPySpace_toLower
  rw [List.dropWhile_map, hfun]

/-- Stripping commutes with lowercasing. -/
theorem stripList_map_toLower (l : List Char) :
    stripList (l.map Char.toLower) = (stripList l).map Char.toLower := by
  unfold stripList
  rw [← List.map_reverse, trimL_map_toLower, ← List.map_reverse, trimL_map_toLower]

theorem toList_append (a b : String) : (a ++ b).toList = a.toList ++ b.toList :=
  String.data_append a b

theorem mk_toList (l : List Char) : (String.mk l).toList = l := rfl

/-! ## Claim C1 -/

/-- C1 (code bug): `dedup` is claimed to return pairwise-distinct names for
every input, but the suffixing scheme can collide with an input name: on
`["a", "a_1", "a"]` the repeated `"a"` is renamed to `"a_1"`, which duplicates
the second input name, so the output is not pairwise distinct. -/
theorem dedup_suffix_collision :
    dedup [some "a", some "a_1", some "a"] = ["a", "a_1", "a_1"] ∧
    ¬ (dedup [some "a", some "a_1", some "a"]).Nodup := by decide

/-! ## Claim C10 -/

/-- C10: `_key_for` is invariant under adding leading/trailing whitespace to
either argument and under any change of letter case (two strings with the same
lowercasing are interchangeable), so the salary-into-projections join matches
players case- and whitespace-insensitively. -/
theorem key_for_case_ws_invariant
    (p t p2 t2 wl wr vl vr : String)
    (hwl : ∀ c ∈ wl.toList, isPySpace c = true)
    (hwr : ∀ c ∈ wr.toList, isPySpace c = true)
    (hvl : ∀ c ∈ vl.toList, isPySpace c = true)
    (hvr : ∀ c ∈ vr.toList, isPySpace c = true)
    (hp : pyLower p2 = pyLower p)
    (ht : pyLower t2 = pyLower t) :
    key_for (wl ++ p2 ++ wr) (vl ++ t2 ++ vr) = key_for p t := by
  have hpl : p2.toList.map Char.toLower = p.toList.map Char.toLower := congrArg String.data hp
  have htl : t2.toList.map Char.toLower = t.toList.map Char.toLower := congrArg String.data ht
  have hsp : stripList ((wl ++ p2 ++ wr).toList) = stripList p2.toList := by
    rw [toList_append, toList_append, stripList_append_ws hwr, stripList_ws_append hwl]
  have hst : stripList ((vl ++ t2 ++ vr).toList) = stripList t2.toList := by
    rw [toList_append, toList_append, stripList_append_ws hvr, stripList_ws_append hvl]
  have hUL : (Char.toUpper ∘ Char.toLower) = Char.toUpper := funext toUpper_toLower
  have c1 : (stripList p2.toList).map Char.toLower = (stripList p.toList).map Char.toLower := by
    rw [← stripList_map_toLower, hpl, stripList_map_toLower]
  have c2 : (stripList t2.toList).map Char.toUpper = (stripList t.toList).map Char.toUpper := by
    calc (stripList t2.toList).map Char.toUpper
        = ((stripList t2.toList).map Char.toLower).map Char.toUpper := by
          rw [List.map_map, hUL]
      _ = (stripList (t2.toList.map Char.toLower)).map Char.toUpper := by
          rw [stripList_map_toLower]
      _ = (stripList (t.toList.map Char.toLower)).map Char.toUpper := by rw [htl]
      _ = ((stripList t.toList).map Char.toLower).map Char.toUpper := by
          rw [stripList_map_toLower]
      _ = (stripList t.toList).map Char.toUpper := by rw [List.map_map, hUL]
  have hdl : ∀ s : String, s.toList = s.data := fun _ => rfl
  unfold key_for pyLower pyUpper pyStrip
  simp only [hdl] at hsp hst c1 c2 ⊢
  rw [hsp, hst, c1, c2]

/-- C10 witness: the invariance theorem applied at a concrete player/team
pair with mixed case and whitespace padding. -/
theorem key_for_case_ws_invariant_witness :
    key_for (" " ++ "ToM braDY" ++ " ") ("  " ++ "ne" ++ " ") = key_for "Tom Brady" "NE" :=
  key_for_case_ws_invariant "Tom Brady" "NE" "ToM braDY" "ne" " " " " "  " " "
    (by decide) (by decide) (by decide) (by decide) (by decide) (by decide)

/-! ## _normalize_time_string (NFL_Exporter.py lines 835-846)

The regex `(\d{1,2})\s*:\s*(\d{2})(?::\d{2})?\s*([ap])\s*\.?\s*m` (IGNORECASE)
is modelled by a hand-rolled matcher with the same backtracking behaviour:
the hour group greedily tries two digits and falls back to one, and the
optional seconds group is tried and then skipped.  `searchTime` scans for the
leftmost starting position, exactly like `re.search`. -/

/-- Tail of the pattern after the `[ap]` group: `\s*\.?\s*m` (case-insensitive
`m`).  All three pieces are deterministic: no whitespace character is a dot or
an `m`, and a dot is not an `m`. -/
def tailAfterAp (cs : List Char) : Bool :=
  let cs1 := cs.dropWhile isPySpace
  let cs2 := match cs1 with
    | c :: r => if c = '.' then r else cs1
    | [] => cs1
  match cs2.dropWhile isPySpace with
  | c :: _ => c = 'm' || c = 'M'
  | [] => false

/-- The `\s*([ap])` piece followed by `tailAfterAp`; returns the captured
am/pm character. -/
def apTail (cs : List Char) : Option Char :=
  match cs.dropWhile isPySpace with
  | c :: rest =>
    if (c = 'a' || c = 'A' || c = 'p' || c = 'P') && tailAfterAp rest then some c else none
  | [] => none

/-- The optional seconds group `(?::\d{2})?` before `apTail`: try consuming
`:dd` first, otherwise (backtracking) continue without it. -/
def optSecondsAp (cs : List Char) : Option Char :=
  match cs with
  | c0 :: d1 :: d2 :: rest =>
    if c0 = ':' && isDig d1 && isDig d2 then
      match apTail rest with
      | some c => some c
      | none => apTail cs
    else apTail cs
  | _ => apTail cs

/-- After the hour digits: `\s*:\s*(\d{2})` then the optional seconds and the
am/pm tail; returns the minute characters and the am/pm character. -/
def afterHour (cs : List Char) : Option (List Char × Char) :=
  match cs.dropWhile isPySpace with
  | c0 :: r =>
    if c0 = ':' then
      match r.dropWhile isPySpace with
      | m1 :: m2 :: r2 =>
        if isDig m1 && isDig m2 then
          match optSecondsAp r2 with
          | some ap => some ([m1, m2], ap)
          | none => none
        else none
      | _ => none
    else none
  | [] => none

/-- Try to match the whole pattern at the head of the list.  The hour group
`(\d{1,2})` is greedy: two digits are tried first, then one. -/
def matchAt (cs : List Char) : Option (List Char × List Char × Char) :=
  match cs with
  | [] => none
  | d1 :: rest =>
    if isDig d1 then
      match rest with
      | d2 :: rest2 =>
        if isDig d2 then
          match afterHour rest2 with
          | some (mm, ap) => some ([d1, d2], mm, ap)
          | none =>
            match afterHour rest with
            | some (mm, ap) => some ([d1], mm, ap)
            | none => none
        else
          match afterHour rest with
          | some (mm, ap) => some ([d1], mm, ap)
          | none => none
      | [] => none
    else none

/-- `re.search`: try every start position from the left. -/
def searchTime : List Char → Option (List Char × List Char × Char)
  | [] => none
  | c :: rest =>
    match matchAt (c :: rest) with
    | some r => some r
    | none => searchTime rest

/-- Python `int()` on a string of ASCII digits. -/
def pyIntDigits (l : List Char) : Nat :=
  l.foldl (fun n c => n * 10 + (c.toNat - 48)) 0

/-- `_normalize_time_string`: `None`/empty input gives `None`; otherwise search
for the time pattern and rebuild `f"{h}:{mm} {ampm}"` with `h = int(group(1))`,
`mm = group(2)` (already two digits, so `zfill(2)` is the identity) and
`ampm` decided by the `[ap]` capture. -/
def normalize_time_string (s : Option String) : Option String :=
  match s with
  | none => none
  | some str =>
    if str = "" then none
    else
      match searchTime str.toList with
      | none => none
      | some (hd, mm, ap) =>
        some (toString (pyIntDigits hd) ++ ":" ++ String.mk mm ++ " " ++
          (if ap = 'a' || ap = 'A' then "AM" else "PM"))

/-! ### Facts about the time matcher -/

theorem apTail_ok {cs : List Char} {ap : Char} (h : apTail cs = some ap) :
    ap = 'a' ∨ ap = 'A' ∨ ap = 'p' ∨ ap = 'P' := by
  unfold apTail at h
  split at h
  · rename_i c rest heq
    split at h
    · rename_i hcond
      cases h
      simp only [Bool.and_eq_true, Bool.or_eq_true, decide_eq_true_eq] at hcond
      tauto
    · exact absurd h (by simp)
  · exact absurd h (by simp)

theorem optSecondsAp_ok {cs : List Char} {ap : Char} (h : optSecondsAp cs = some ap) :
    ap = 'a' ∨ ap = 'A' ∨ ap = 'p' ∨ ap = 'P' := by
  unfold optSecondsAp at h
  split at h
  · split at h
    · split at h
      · rename_i heq
        cases h
        exact apTail_ok heq
      · exact apTail_ok h
    · exact apTail_ok h
  · exact apTail_ok h

theorem afterHour_ok {cs : List Char} {mm : List Char} {ap : Char}
    (h : afterHour cs = some (mm, ap)) :
    (∃ m1 m2, mm = [m1, m2] ∧ isDig m1 = true ∧ isDig m2 = true) ∧
    (ap = 'a' ∨ ap = 'A' ∨ ap = 'p' ∨ ap = 'P') := by
  unfold afterHour at h
  split at h
  · split at h
    · split at h
      · split at h
        · split at h
          · cases h
            exact ⟨⟨_, _, rfl, by simp_all, by simp_all⟩, optSecondsAp_ok (by assumption)⟩
          · exact absurd h (by simp)
        · exact absurd h (by simp)
      · exact absurd h (by simp)
    · exact absurd h (by simp)
  · exact absurd h (by simp)

theorem matchAt_ok {cs hd mm : List Char} {ap : Char}
    (h : matchAt cs = some (hd, mm, ap)) :
    ((∃ d, hd = [d] ∧ isDig d = true) ∨
      (∃ d1 d2, hd = [d1, d2] ∧ isDig d1 = true ∧ isDig d2 = true)) ∧
    (∃ m1 m2, mm = [m1, m2] ∧ isDig m1 = true ∧ isDig m2 = true) ∧
    (ap = 'a' ∨ ap = 'A' ∨ ap = 'p' ∨ ap = 'P') := by
  unfold matchAt at h
  split at h
  · exact absurd h (by simp)
  · split at h
    · split at h
      · split at h
        · split at h
          · cases h
            have ha := afterHour_ok (by assumption)
            exact ⟨Or.inr ⟨_, _, rfl, by simp_all, by simp_all⟩, ha.1, ha.2⟩
          · split at h
            · cases h
              have ha := afterHour_ok (by assumption)
              exact ⟨Or.inl ⟨_, rfl, by simp_all⟩, ha.1, ha.2⟩
            · exact absurd h (by simp)
        · split at h
          · cases h
            have ha := afterHour_ok (by assumption)
            exact ⟨Or.inl ⟨_, rfl, by simp_all⟩, ha.1, ha.2⟩
          · exact absurd h (by simp)
      · exact absurd h (by simp)
    · exact absurd h (by simp)

theorem searchTime_ok {cs hd mm : List Char} {ap : Char}
    (h : searchTime cs = some (hd, mm, ap)) :
    ((∃ d, hd = [d] ∧ isDig d = true) ∨
      (∃ d1 d2, hd = [d1, d2] ∧ isDig d1 = true ∧ isDig d2 = true)) ∧
    (∃ m1 m2, mm = [m1, m2] ∧ isDig m1 = true ∧ isDig m2 = true) ∧
    (ap = 'a' ∨ ap = 'A' ∨ ap = 'p' ∨ ap = 'P') := by
  induction cs with
  | nil => exact absurd h (by simp [searchTime])
  | cons c rest ih =>
    unfold searchTime at h
    split at h
    · rename_i heq
      cases h
      exact matchAt_ok heq
    · exact ih h

/-! ### Matching the canonical output shape -/

theorem afterHour_canonical (m1 m2 apc : Char)
    (h1 : isDig m1 = true) (h2 : isDig m2 = true) (hap : apc = 'A' ∨ apc = 'P') :
    afterHour (':' :: m1 :: m2 :: ' ' :: apc :: ['M']) = some ([m1, m2], apc) := by
  have s1 : isPySpace m1 = false := isPySpace_eq_false_of_isDig h1
  rcases hap with rfl | rfl <;>
    simp [afterHour, optSecondsAp, apTail, tailAfterAp, List.dropWhile_cons, s1, h1, h2,
      show isPySpace (':' : Char) = false from by decide,
      show isPySpace (' ' : Char) = true from by decide,
      show isPySpace ('A' : Char) = false from by decide,
      show isPySpace ('P' : Char) = false from by decide,
      show isPySpace ('M' : Char) = false from by decide]

theorem matchAt_canonical_one (d m1 m2 apc : Char)
    (hd : isDig d = true) (h1 : isDig m1 = true) (h2 : isDig m2 = true)
    (hap : apc = 'A' ∨ apc = 'P') :
    matchAt (d :: ':' :: m1 :: m2 :: ' ' :: apc :: ['M']) = some ([d], [m1, m2], apc) := by
  simp [matchAt, hd, show isDig (':' : Char) = false from by decide,
    afterHour_canonical m1 m2 apc h1 h2 hap]

theorem matchAt_canonical_two (d1 d2 m1 m2 apc : Char)
    (hd1 : isDig d1 = true) (hd2 : isDig d2 = true)
    (h1 : isDig m1 = true) (h2 : isDig m2 = true)
    (hap : apc = 'A' ∨ apc = 'P') :
    matchAt (d1 :: d2 :: ':' :: m1 :: m2 :: ' ' :: apc :: ['M']) =
      some ([d1, d2], [m1, m2], apc) := by
  simp [matchAt, hd1, hd2, afterHour_canonical m1 m2 apc h1 h2 hap]

theorem searchTime_cons_some {c : Char} {rest : List Char}
    {r : List Char × List Char × Char} (h : matchAt (c :: rest) = some r) :
    searchTime (c :: rest) = some r := by
  simp [searchTime, h]

/-! ### Decimal representation of small naturals -/

/-- For every `n < 100`, `toString n` is one or two ASCII digits and parsing
it back with `pyIntDigits` recovers `n`. -/
theorem toString_digits_lt100 : ∀ n < 100,
    ((toString n).toList.length = 1 ∨ (toString n).toList.length = 2) ∧
    (∀ c ∈ (toString n).toList, isDig c = true) ∧
    pyIntDigits ((toString n).toList) = n := by decide

theorem pyIntDigits_single {d : Char} (h : isDig d = true) : pyIntDigits [d] ≤ 99 := by
  simp only [isDig, Bool.and_eq_true, decide_eq_true_eq] at h
  simp only [pyIntDigits, List.foldl]
  omega

theorem pyIntDigits_pair {d1 d2 : Char} (h1 : isDig d1 = true) (h2 : isDig d2 = true) :
    pyIntDigits [d1, d2] ≤ 99 := by
  simp only [isDig, Bool.and_eq_true, decide_eq_true_eq] at h1 h2
  simp only [pyIntDigits, List.foldl]
  omega

/-- A canonical output of `_normalize_time_string` re-normalises to itself. -/
theorem normalize_canonical (hour : Nat) (m1 m2 : Char) (isAm : Bool)
    (hh : hour ≤ 99) (h1 : isDig m1 = true) (h2 : isDig m2 = true) :
    normalize_time_string (some (toString hour ++ ":" ++ String.mk [m1, m2] ++ " " ++
        (if isAm then "AM" else "PM"))) =
      some (toString hour ++ ":" ++ String.mk [m1, m2] ++ " " ++
        (if isAm then "AM" else "PM")) := by
  have hA : (if isAm then ("AM" : String) else "PM") =
      String.mk [(if isAm then 'A' else 'P'), 'M'] := by
    cases isAm <;> rfl
  set apc := (if isAm then 'A' else 'P') with hapc
  have hapor : apc = 'A' ∨ apc = 'P' := by
    cases isAm <;> simp [hapc]
  obtain ⟨hlen, hdigs, hparse⟩ := toString_digits_lt100 hour (by omega)
  have hlist : (toString hour ++ ":" ++ String.mk [m1, m2] ++ " " ++
      (if isAm then ("AM" : String) else "PM")).toList
      = (toString hour).toList ++ ':' :: m1 :: m2 :: ' ' :: apc :: ['M'] := by
    rw [hA]
    simp only [toList_append, mk_toList,
      show (":" : String).toList = [':'] from rfl,
      show (" " : String).toList = [' '] from rfl]
    simp
  have hne : (toString hour ++ ":" ++ String.mk [m1, m2] ++ " " ++
      (if isAm then ("AM" : String) else "PM")) ≠ "" := by
    intro he
    have h0 := hlist
    rw [he] at h0
    exact absurd h0.symm (by simp)
  have hsearch : searchTime ((toString hour).toList ++ ':' :: m1 :: m2 :: ' ' :: apc :: ['M'])
      = some ((toString hour).toList, [m1, m2], apc) := by
    rcases hlen with hl | hl
    · obtain ⟨d, hdeq⟩ := List.length_eq_one.mp hl
      have hdd : isDig d = true := hdigs d (by rw [hdeq]; simp)
      rw [hdeq]
      exact searchTime_cons_some (matchAt_canonical_one d m1 m2 apc hdd h1 h2 hapor)
    · obtain ⟨d1, d2, hdeq⟩ := List.length_eq_two.mp hl
      have hdd1 : isDig d1 = true := hdigs d1 (by rw [hdeq]; simp)
      have hdd2 : isDig d2 = true := hdigs d2 (by rw [hdeq]; simp)
      rw [hdeq]
      exact searchTime_cons_some (matchAt_canonical_two d1 d2 m1 m2 apc hdd1 hdd2 h1 h2 hapor)
  have hback : (if apc = 'a' || apc = 'A' then ("AM" : String) else "PM") =
      (if isAm then ("AM" : String) else "PM") := by
    cases isAm <;> simp [hapc]
  simp only [normalize_time_string]
  rw [if_neg hne, hlist, hsearch]
  simp only [hparse, hback]

/-! ## Claim C9 -/

/-- C9: `_normalize_time_string` is shape-normalising and idempotent: every
non-`None` result is of the form `H:MM AM` or `H:MM PM` with two-digit
minutes (and an hour below 100), and re-normalising such a result returns it
unchanged. -/
theorem normalize_time_shape_idem (s out : String)
    (h : normalize_time_string (some s) = some out) :
    (∃ (hour : Nat) (isAm : Bool) (m1 m2 : Char), hour ≤ 99 ∧
      isDig m1 = true ∧ isDig m2 = true ∧
      out = toString hour ++ ":" ++ String.mk [m1, m2] ++ " " ++
        (if isAm then "AM" else "PM")) ∧
    normalize_time_string (some out) = some out := by
  simp only [normalize_time_string] at h
  by_cases hs : s = ""
  · rw [if_pos hs] at h
    exact absurd h (by simp)
  · rw [if_neg hs] at h
    rcases hst : searchTime s.toList with - | ⟨hd, mm, ap⟩
    · rw [hst] at h
      exact absurd h (by simp)
    · rw [hst] at h
      obtain ⟨hdshape, ⟨m1, m2, hmm, h1, h2⟩, hapset⟩ := searchTime_ok hst
      subst hmm
      have hh99 : pyIntDigits hd ≤ 99 := by
        rcases hdshape with ⟨d, rfl, hdd⟩ | ⟨d1, d2, rfl, hdd1, hdd2⟩
        · exact pyIntDigits_single hdd
        · exact pyIntDigits_pair hdd1 hdd2
      have hout : toString (pyIntDigits hd) ++ ":" ++ String.mk [m1, m2] ++ " " ++
          (if ap = 'a' || ap = 'A' then "AM" else "PM") = out := by
        injection h
      refine ⟨⟨pyIntDigits hd, (ap = 'a' || ap = 'A'), m1, m2, hh99, h1, h2, hout.symm⟩, ?_⟩
      rw [← hout]
      exact normalize_canonical (pyIntDigits hd) m1 m2 (ap = 'a' || ap = 'A') hh99 h1 h2

/-- C9 witness: the theorem applied at the concrete input `"7:05 pm"`,
whose normalisation is `"7:05 PM"`. -/
theorem normalize_time_shape_idem_witness :
    (∃ (hour : Nat) (isAm : Bool) (m1 m2 : Char), hour ≤ 99 ∧
      isDig m1 = true ∧ isDig m2 = true ∧
      "7:05 PM" = toString hour ++ ":" ++ String.mk [m1, m2] ++ " " ++
        (if isAm then "AM" else "PM")) ∧
    normalize_time_string (some "7:05 PM") = some "7:05 PM" :=
  normalize_time_shape_idem "7:05 pm" "7:05 PM" (by decide)

/-! ## to_json_records (NFL_Exporter.py lines 113-115, NASCAR_Exporter.py 96-98)

`to_json_records` first replaces every missing (NaN) value by the empty string
(`df.astype(object).where(pd.notna(df), "")`) and then serialises with
`to_json(orient="records")`, under which every remaining cell is a string.
A DataFrame is modelled as a header list plus rows of `Option String` cells
(`none` is a missing value); a JSON record is a list of key/value pairs. -/

/-- The JSON values that can appear in an exported record. -/
inductive JVal where
  | jnull : JVal
  | jstr : String → JVal
deriving DecidableEq

/-- One serialised record: every header is paired with the cell under it,
missing cells having been replaced by the empty string. -/
def jsonRecordOfRow (headers : List String) (row : List (Option String)) :
    List (String × JVal) :=
  headers.zip (row.map (fun c => JVal.jstr (c.getD "")))

/-- `to_json_records`: serialise each row. -/
def to_json_records (headers : List String) (rows : List (List (Option String))) :
    List (List (String × JVal)) :=
  rows.map (jsonRecordOfRow headers)

/-- The claim C5 as stated, following the spec words: every blank or empty
input cell either becomes JSON `null` or is omitted from its record — its key
never appears with any other value. -/
def blankNullOrOmittedSpec (headers : List String) (rows : List (List (Option String))) :
    Prop :=
  ∀ (i j : Nat) (row : List (Option String)) (cell : Option String),
    rows[i]? = some row → row[j]? = some cell →
    (cell = none ∨ cell = some "") →
    ∀ v, (headers.getD j "", v) ∈ ((to_json_records headers rows)[i]?).getD [] →
      v = JVal.jnull

/-! ## Claim C5 -/

/-- C5 counterexample: a single blank cell is serialised as the empty string
`""`, which is neither `null` nor omitted — the key appears with the value
`jstr ""`. -/
theorem to_json_records_blank_is_empty_string :
    to_json_records ["A"] [[some ""]] = [[("A", JVal.jstr "")]] ∧
    ¬ blankNullOrOmittedSpec ["A"] [[some ""]] := by
  constructor
  · rfl
  · intro hspec
    have := hspec 0 0 [some ""] (some "") rfl rfl (Or.inr rfl) (JVal.jstr "") (by decide)
    simp at this

theorem zip_get?_some {α β : Type} {l : List α} {m : List β} {j : Nat} {a : α} {b : β}
    (ha : l[j]? = some a) (hb : m[j]? = some b) :
    (l.zip m)[j]? = some (a, b) := by
  induction l generalizing m j with
  | nil => simp at ha
  | cons x xs ih =>
    cases m with
    | nil => simp at hb
    | cons y ys =>
      cases j with
      | zero =>
        simp at ha hb
        simp [ha, hb]
      | succ j =>
        simp at ha hb
        simpa using ih ha hb

/-- C5 amended: a blank or empty input cell becomes the empty-string value
`""` in the serialised record (never `null`, never omitted, and never any
other value): `to_json_records` replaces missing values by `""` before
serialising, and blank cells are already `""`. -/
theorem to_json_records_blank_cell (headers : List String)
    (rows : List (List (Option String))) (i j : Nat) (row : List (Option String))
    (cell : Option String)
    (hrow : rows[i]? = some row) (hcell : row[j]? = some cell)
    (hblank : cell = none ∨ cell = some "") (hj : j < headers.length) :
    ∃ rec, (to_json_records headers rows)[i]? = some rec ∧
      rec[j]? = some (headers.getD j "", JVal.jstr "") := by
  refine ⟨jsonRecordOfRow headers row, ?_, ?_⟩
  · unfold to_json_records
    rw [List.getElem?_map, hrow]
    rfl
  · unfold jsonRecordOfRow
    have hhead : headers[j]? = some (headers.getD j "") := by
      rw [List.getD_eq_getElem?_getD, List.getElem?_eq_getElem hj]
      rfl
    have hval : (row.map (fun c => JVal.jstr (c.getD "")))[j]? = some (JVal.jstr "") := by
      rw [List.getElem?_map, hcell]
      rcases hblank with rfl | rfl <;> rfl
    exact zip_get?_some hhead hval

/-- C5 witness: the amended theorem applied to a record with one blank and one
non-blank cell. -/
theorem to_json_records_blank_cell_witness :
    ∃ rec, (to_json_records ["A", "B"] [[some "", some "x"]])[0]? = some rec ∧
      rec[0]? = some (["A", "B"].getD 0 "", JVal.jstr "") :=
  to_json_records_blank_cell ["A", "B"] [[some "", some "x"]] 0 0 [some "", some "x"]
    (some "") rfl rfl (Or.inr rfl) (by decide)

/-! ## Cheat-sheet panel row collection

All three exporters carve a panel's data rows out of the sheet with a bounded
loop below the header row, but the loops differ in detail:
* NFL_Exporter.py `run_cheatsheets` (lines 435-449): a single blank row is
  skipped, two consecutive blank rows stop, then the title check, with
  `limit_rows` capping the collection (default 10);
* NASCAR_Exporter.py `run_cheatsheets` (lines 445-457): the first blank row
  stops, then the title check, with `limit_rows` capping (default 10);
* MLB_Exporter.py `run_cheatsheets` (lines 462-495): a configured title in a
  non-empty first cell stops (checked before the blank test), a single blank
  row is skipped, two consecutive blank rows stop, with `limit_rows` capping
  (default 200).

A sheet row inside the panel span is modelled by the display cells the loop
works with (for NFL/MLB the `_format_cell` texts — in MLB after the
hyperlink-player and time fix-ups — for NASCAR the raw cell texts, with
missing cells as `""`) together with the normalised raw text of its first
cell (`norm(...)`), which is what the title check inspects. -/

structure PanelRow where
  display : List String
  firstNorm : String
deriving DecidableEq

/-- NFL/MLB blank test: `all(x == "" for x in display)`. -/
def rowBlank (row : PanelRow) : Bool := row.display.all (· == "")

/-- The NFL data-collection loop, with `limit` the remaining capacity
(`limit_rows - len(rows)`) and `blanks` the current `blank_rows` counter. -/
def collectRows (titles : List String) : Nat → Nat → List PanelRow → List (List String)
  | _, _, [] => []
  | limit, blanks, row :: rest =>
    if limit = 0 then []
    else if rowBlank row then
      (if blanks + 1 ≥ 2 then [] else collectRows titles limit (blanks + 1) rest)
    else if titles.contains row.firstNorm then []
    else row.display :: collectRows titles (limit - 1) 0 rest

/-- The NFL collection as the spec sentence describes it: read rows one by one
beneath the title, stopping only at a run of blank rows or at the next
configured title — with no row limit. -/
def specCollectRows (titles : List String) : Nat → List PanelRow → List (List String)
  | _, [] => []
  | blanks, row :: rest =>
    if rowBlank row then
      (if blanks + 1 ≥ 2 then [] else specCollectRows titles (blanks + 1) rest)
    else if titles.contains row.firstNorm then []
    else row.display :: specCollectRows titles 0 rest

/-- NASCAR blank test:
`all(str(x).strip() == "" or pd.isna(x) for x in row_slice)`
(missing cells modelled as `""`). -/
def nascarRowBlank (row : PanelRow) : Bool := row.display.all (fun s => pyStrip s == "")

/-- The NASCAR data-collection loop: the first blank row stops, then the title
check, with `limit` the remaining capacity (`limit_rows - taken`). -/
def nascarCollectRows (titles : List String) : Nat → List PanelRow → List (List String)
  | _, [] => []
  | limit, row :: rest =>
    if limit = 0 then []
    else if nascarRowBlank row then []
    else if titles.contains row.firstNorm then []
    else row.display :: nascarCollectRows titles (limit - 1) rest

/-- The NASCAR collection without the row limit. -/
def nascarSpecCollectRows (titles : List String) : List PanelRow → List (List String)
  | [] => []
  | row :: rest =>
    if nascarRowBlank row then []
    else if titles.contains row.firstNorm then []
    else row.display :: nascarSpecCollectRows titles rest

/-- The MLB data-collection loop: a configured title in a non-empty first cell
stops (`if first and first in all_titles_norm`, checked before the blank
test), single blank rows are skipped, two consecutive blank rows stop, and
`limit` is the remaining capacity (`limit_rows - len(rows)`). -/
def mlbCollectRows (titles : List String) : Nat → Nat → List PanelRow → List (List String)
  | _, _, [] => []
  | limit, blanks, row :: rest =>
    if limit = 0 then []
    else if row.firstNorm != "" && titles.contains row.firstNorm then []
    else if rowBlank row then
      (if blanks + 1 ≥ 2 then [] else mlbCollectRows titles limit (blanks + 1) rest)
    else row.display :: mlbCollectRows titles (limit - 1) 0 rest

/-- The MLB collection without the row limit. -/
def mlbSpecCollectRows (titles : List String) : Nat → List PanelRow → List (List String)
  | _, [] => []
  | blanks, row :: rest =>
    if row.firstNorm != "" && titles.contains row.firstNorm then []
    else if rowBlank row then
      (if blanks + 1 ≥ 2 then [] else mlbSpecCollectRows titles (blanks + 1) rest)
    else row.display :: mlbSpecCollectRows titles 0 rest

theorem nfl_collect_eq_take (titles : List String) (limit blanks : Nat)
    (rows : List PanelRow) :
    collectRows titles limit blanks rows = (specCollectRows titles blanks rows).take limit := by
  induction rows generalizing limit blanks with
  | nil => simp [collectRows, specCollectRows]
  | cons row rest ih =>
    rw [collectRows, specCollectRows]
    by_cases hlim : limit = 0
    · simp [hlim]
    · by_cases hb : rowBlank row = true
      · by_cases h2 : blanks + 1 ≥ 2
        · simp [hlim, hb, h2]
        · simp [hlim, hb, h2, ih]
      · by_cases ht : row.firstNorm ∈ titles
        · simp [hlim, hb, ht]
        · obtain ⟨k, rfl⟩ := Nat.exists_eq_succ_of_ne_zero hlim
          simp [hb, ht, ih, List.take_succ_cons]

theorem nascar_collect_eq_take (titles : List String) (limit : Nat)
    (rows : List PanelRow) :
    nascarCollectRows titles limit rows = (nascarSpecCollectRows titles rows).take limit := by
  induction rows generalizing limit with
  | nil => simp [nascarCollectRows, nascarSpecCollectRows]
  | cons row rest ih =>
    rw [nascarCollectRows, nascarSpecCollectRows]
    by_cases hlim : limit = 0
    · simp [hlim]
    · by_cases hb : nascarRowBlank row = true
      · simp [hlim, hb]
      · by_cases ht : row.firstNorm ∈ titles
        · simp [hlim, hb, ht]
        · obtain ⟨k, rfl⟩ := Nat.exists_eq_succ_of_ne_zero hlim
          simp [hb, ht, ih, List.take_succ_cons]

theorem mlb_collect_eq_take (titles : List String) (limit blanks : Nat)
    (rows : List PanelRow) :
    mlbCollectRows titles limit blanks rows = (mlbSpecCollectRows titles blanks rows).take limit := by
  induction rows generalizing limit blanks with
  | nil => simp [mlbCollectRows, mlbSpecCollectRows]
  | cons row rest ih =>
    rw [mlbCollectRows, mlbSpecCollectRows]
    by_cases hlim : limit = 0
    · simp [hlim]
    · by_cases ht : (row.firstNorm ≠ "" ∧ row.firstNorm ∈ titles)
      · simp [hlim, ht.1, ht.2]
      · by_cases hb : rowBlank row = true
        · by_cases h2 : blanks + 1 ≥ 2
          · simp [hlim, ht, hb, h2]
          · simp [hlim, ht, hb, h2, ih]
        · obtain ⟨k, rfl⟩ := Nat.exists_eq_succ_of_ne_zero hlim
          simp [ht, hb, ih, List.take_succ_cons]

/-! ## Claim C3 -/

/-- C3 counterexample: with the NFL exporter's default `limit_rows = 10` and a
panel of eleven data rows (no blanks, no following title), the code collects
only ten rows while the spec description collects all eleven. -/
theorem collectRows_limit_counterexample :
    collectRows [] 10 0 (List.replicate 11 ⟨["x"], "x"⟩) ≠
      specCollectRows [] 0 (List.replicate 11 ⟨["x"], "x"⟩) := by decide

/-- C3 amended: in each exporter the rows collected are exactly the rows read
one by one beneath the title — stopping at a run of blank rows (a single blank
row in NASCAR; two consecutive blank rows in NFL and MLB, which skip single
blank rows) or at the next configured title in the panel's first column (in
MLB checked before the blank test and only for a non-empty first cell) —
truncated to the exporter's configured `limit_rows` bound. -/
theorem cheatsheet_rows_eq_take_spec (titles : List String) (limit blanks : Nat)
    (rows : List PanelRow) :
    collectRows titles limit blanks rows = (specCollectRows titles blanks rows).take limit ∧
    nascarCollectRows titles limit rows = (nascarSpecCollectRows titles rows).take limit ∧
    mlbCollectRows titles limit blanks rows =
      (mlbSpecCollectRows titles blanks rows).take limit :=
  ⟨nfl_collect_eq_take titles limit blanks rows,
    nascar_collect_eq_take titles limit rows,
    mlb_collect_eq_take titles limit blanks rows⟩

/-! ## Header-row choice for cheat-sheet panels

Three different mechanisms appear in the sources:
* MLB_Exporter.py `pick_header_row` (lines 421-434): score the title row and
  the row below it and keep the strictly better one (ties keep the title row);
* NFL_Exporter.py `_maybe_shift_header_down` (lines 364-376): shift down by
  one exactly when the title row's first cell equals the panel title verbatim
  and the next row contains at least two distinct expected header keywords;
* NASCAR_Exporter.py `run_cheatsheets` (lines 434-438): the title row is
  always the header row. -/

/-- MLB `EXPECTED` keyword set. -/
def EXPECTED : List String :=
  ["player", "salary", "team", "matchup", "vegas", "time", "proj", "value", "pown"]

/-- The score computed inside MLB `pick_header_row` for one candidate row:
count of expected keywords, a bonus of 3 for a `player` column, and the count
of non-empty labels (all on the lower-cased labels). -/
def mlbScore (labels : List String) : Nat :=
  let ll := labels.map pyLower
  ll.countP (fun l => EXPECTED.contains l) +
    (if ll.contains "player" then 3 else 0) +
    ll.countP (fun l => pyStrip l != "")

/-- MLB `pick_header_row`: fold over the two candidate rows, starting from
`(start_r, -1)`, replacing the best on a strictly greater score. -/
def pick_header_row (r0 : Nat) (labels0 labels1 : List String) : Nat :=
  (([(r0, (mlbScore labels0 : Int)), (r0 + 1, (mlbScore labels1 : Int))].foldl
    (fun best cand => if best.2 < cand.2 then cand else best) (r0, (-1 : Int)))).1

/-- Replace every whitespace character by a space (first phase of
`re.sub(r"\s+", " ", t)`). -/
def spacesToBlank (l : List Char) : List Char :=
  l.map (fun c => if isPySpace c then ' ' else c)

/-- Collapse adjacent spaces (second phase of `re.sub(r"\s+", " ", t)`). -/
def dedupSpaces : List Char → List Char
  | [] => []
  | [c] => [c]
  | a :: b :: rest =>
    if a = ' ' && b = ' ' then dedupSpaces (b :: rest) else a :: dedupSpaces (b :: rest)

/-- NFL header-token normalisation:
`re.sub(r"\s+", " ", str(v or "")).strip().lower()`. -/
def normToken (s : String) : String :=
  pyLower (pyStrip (String.mk (dedupSpaces (spacesToBlank s.toList))))

/-- NFL `_HEADER_KEYS`. -/
def HEADER_KEYS : List String :=
  ["player", "salary", "team", "opponent", "opp", "o/u", "imp. total", "proj",
    "projection", "value", "pown", "pown%", "cash/gpp/both", "time"]

/-- NFL `_looks_like_header`: at least two distinct normalised tokens are
expected header keywords (the Python code intersects a set of tokens with
`_HEADER_KEYS`). -/
def looksLikeHeader (vals : List String) : Bool :=
  2 ≤ ((vals.map normToken).dedup.countP (fun t => HEADER_KEYS.contains t))

/-- NFL `_maybe_shift_header_down`: move the header one row down exactly when
the first formatted cell of the current header row equals the section title
(both stripped) and the next row looks like real headers. -/
def maybe_shift_header_down (header_r : Nat) (headVals nxtVals : List String)
    (titleText : String) : Nat :=
  if pyStrip (headVals.headD "") = pyStrip titleText then
    (if looksLikeHeader nxtVals then header_r + 1 else header_r)
  else header_r

/-- NASCAR `run_cheatsheets`: the yellow row with the title text is the
header row. -/
def nascar_header_row (start_r : Nat) : Nat := start_r

/-- The choice rule as the claim words it: the candidate (title row or the row
below) with the higher score — counting expected header keywords and non-empty
labels — wins, with ties resolved to the title row. -/
def headerChoiceSpec (r0 : Nat) (labels0 labels1 : List String) (keys : List String) : Nat :=
  let sc := fun (ls : List String) =>
    (ls.map normToken).countP (fun t => keys.contains t) +
      ls.countP (fun l => pyStrip l != "")
  if sc labels0 < sc labels1 then r0 + 1 else r0

/-! ## Claim C4 -/

/-- C4 counterexample: when the sheet carries the title in a different case
(`"CASH CORE"` vs the configured `"Cash Core"` — the title lookup is
case-insensitive but `_maybe_shift_header_down` compares verbatim), the NFL
exporter keeps the title row as the header even though the row below scores
higher, so the header row is not chosen by the keyword score. -/
theorem header_choice_counterexample :
    maybe_shift_header_down 5 ["CASH CORE", "", ""] ["Player", "Salary", "Team"]
      "Cash Core" = 5 ∧
    headerChoiceSpec 5 ["CASH CORE", "", ""] ["Player", "Salary", "Team"] HEADER_KEYS = 6 ∧
    (5 : Nat) ≠ 6 := by decide

/-- C4 amended: in every exporter the header row is the title row or the row
immediately below it.  The keyword-scoring rule (ties to the title row) is the
MLB exporter's rule; the NFL exporter instead shifts down exactly when the
title row's first cell is verbatim the panel title and the next row shows at
least two distinct expected header keywords, and the NASCAR exporter always
uses the title row. -/
theorem header_row_choice (r0 : Nat) (l0 l1 : List String) (hr : Nat)
    (hv nv : List String) (tt : String) :
    (pick_header_row r0 l0 l1 = r0 ∨ pick_header_row r0 l0 l1 = r0 + 1) ∧
    (pick_header_row r0 l0 l1 = r0 + 1 ↔ mlbScore l0 < mlbScore l1) ∧
    (maybe_shift_header_down hr hv nv tt = hr ∨
      maybe_shift_header_down hr hv nv tt = hr + 1) ∧
    (maybe_shift_header_down hr hv nv tt = hr + 1 ↔
      (pyStrip (hv.headD "") = pyStrip tt ∧ looksLikeHeader nv = true)) ∧
    nascar_header_row r0 = r0 := by
  have hfold : pick_header_row r0 l0 l1 =
      if (mlbScore l0 : Int) < (mlbScore l1 : Int) then r0 + 1 else r0 := by
    unfold pick_header_row
    simp only [List.foldl]
    rw [if_pos (show (-1 : Int) < (mlbScore l0 : Int) by omega)]
    by_cases hlt : (mlbScore l0 : Int) < (mlbScore l1 : Int)
    · simp [hlt]
    · simp [hlt]
  have hcast : ((mlbScore l0 : Int) < (mlbScore l1 : Int)) ↔ mlbScore l0 < mlbScore l1 :=
    Int.ofNat_lt
  refine ⟨?_, ?_, ?_, ?_, rfl⟩
  · rw [hfold]
    by_cases hlt : (mlbScore l0 : Int) < (mlbScore l1 : Int)
    · exact Or.inr (if_pos hlt)
    · exact Or.inl (if_neg hlt)
  · rw [hfold]
    by_cases hlt : (mlbScore l0 : Int) < (mlbScore l1 : Int)
    · simp [hlt, hcast.mp hlt]
    · simp only [if_neg hlt]
      constructor
      · intro h
        exact absurd h (by omega)
      · intro h
        exact absurd (hcast.mpr h) hlt
  · unfold maybe_shift_header_down
    by_cases h1 : pyStrip (hv.headD "") = pyStrip tt
    · by_cases h2 : looksLikeHeader nv = true
      · rw [if_pos h1, if_pos h2]
        exact Or.inr rfl
      · rw [if_pos h1, if_neg h2]
        exact Or.inl rfl
    · rw [if_neg h1]
      exact Or.inl rfl
  · unfold maybe_shift_header_down
    by_cases h1 : pyStrip (hv.headD "") = pyStrip tt
    · by_cases h2 : looksLikeHeader nv = true
      · rw [if_pos h1, if_pos h2]
        exact ⟨fun _ => ⟨h1, h2⟩, fun _ => rfl⟩
      · rw [if_pos h1, if_neg h2]
        constructor
        · intro h
          exact absurd h (by omega)
        · intro h
          exact absurd h.2 h2
    · rw [if_neg h1]
      constructor
      · intro h
        exact absurd h (by omega)
      · intro h
        exact absurd h.1 h1

/-! ## Gameboard panel spans (NFL_Exporter.py run_gameboard lines 672-674,
MLB_Exporter.py run_matchups lines 663-665)

For each row, `_gb_find_header_cols_in_row` collects the 1-based columns whose
cell is header-like (yellow fill or title-pattern text), scanning columns in
increasing order; a row of header flags models its result.  The span of the
panel starting at `header_cols_sorted[idx]` is then
`c_end = header_cols_sorted[idx+1] - 1` — or `max_col` for the last panel. -/

/-- The 1-based header columns of a row, in increasing order. -/
def gbFindHeaderCols (flags : List Bool) : List Nat :=
  ((List.range flags.length).filter (fun i => flags.getD i false)).map (· + 1)

/-- The `(c_start, c_end)` spans assigned by the loop of `run_gameboard`. -/
def gbSpans : List Nat → Nat → List (Nat × Nat)
  | [], _ => []
  | c :: rest, maxCol =>
    (c, match rest with
        | [] => maxCol
        | c2 :: _ => c2 - 1) :: gbSpans rest maxCol

/-- The span end as the spec sentence describes it: walk right from the title
cell until another header cell or two consecutive empty cells are encountered
(ending the span just before them), or the last column is passed. -/
def spanWalk (isHeaderAt isEmptyAt : Nat → Bool) : Nat → Nat → Nat → Nat
  | 0, _, maxCol => maxCol
  | fuel + 1, c, maxCol =>
    if maxCol < c then maxCol
    else if isHeaderAt c then c - 1
    else if isEmptyAt c && isEmptyAt (c + 1) then c - 1
    else spanWalk isHeaderAt isEmptyAt fuel (c + 1) maxCol

/-- Walk right starting just after the title cell. -/
def spanEndSpec (isHeaderAt isEmptyAt : Nat → Bool) (cStart maxCol : Nat) : Nat :=
  spanWalk isHeaderAt isEmptyAt (maxCol + 1) (cStart + 1) maxCol

/-! ## Claim C2 -/

/-- C2 counterexample: a dashboard row with one header cell in column 1 and
empty cells in columns 2-6.  The code extends the panel to the last column
(span end 6); the claimed walk stops at the two consecutive empty cells
(span end 1). -/
theorem gb_span_counterexample :
    gbSpans (gbFindHeaderCols [true, false, false, false, false, false]) 6 = [(1, 6)] ∧
    spanEndSpec
      (fun c => [true, false, false, false, false, false].getD (c - 1) false)
      (fun c => (["ATL @ BUF", "", "", "", "", ""].getD (c - 1) "") == "") 1 6 = 1 ∧
    (6 : Nat) ≠ 1 := by decide

theorem gbSpans_map_fst (cols : List Nat) (maxCol : Nat) :
    (gbSpans cols maxCol).map Prod.fst = cols := by
  induction cols with
  | nil => rfl
  | cons c rest ih => simpa [gbSpans] using ih

theorem gbSpans_chain_of_chain {cols : List Nat} (maxCol : Nat)
    (h : List.Chain' (· < ·) cols) :
    List.Chain' (fun s1 s2 : Nat × Nat => s1.2 < s2.1) (gbSpans cols maxCol) := by
  induction cols with
  | nil => simp [gbSpans]
  | cons c rest ih =>
    cases rest with
    | nil => simp [gbSpans]
    | cons c2 rest2 =>
      rw [List.chain'_cons] at h
      refine List.chain'_cons.mpr ⟨?_, ih h.2⟩
      show c2 - 1 < (gbSpans (c2 :: rest2) maxCol).headI.1
      simp [gbSpans]
      omega

theorem gbFindHeaderCols_chain (flags : List Bool) :
    List.Chain' (· < ·) (gbFindHeaderCols flags) := by
  apply List.Pairwise.chain'
  unfold gbFindHeaderCols
  apply List.Pairwise.map
  · intro a b hab
    exact Nat.succ_lt_succ hab
  · exact List.Pairwise.filter _ (List.pairwise_lt_range _)

/-- C2 amended: the panel starting at a header column extends to the column
just before the next header column found in the same row, or to the sheet's
last column when none follows; there is no walk over empty cells.  Side-by-side
panels still do not merge: consecutive spans are disjoint (each span ends
strictly before the next span starts). -/
theorem gb_spans_no_merge (flags : List Bool) (maxCol : Nat) :
    (gbSpans (gbFindHeaderCols flags) maxCol).map Prod.fst = gbFindHeaderCols flags ∧
    List.Chain' (fun s1 s2 : Nat × Nat => s1.2 < s2.1)
      (gbSpans (gbFindHeaderCols flags) maxCol) :=
  ⟨gbSpans_map_fst _ _, gbSpans_chain_of_chain _ (gbFindHeaderCols_chain flags)⟩

/-! ## The per-task loop of main (NFL_Exporter.py lines 1115-1121)

Each configured task is modelled by its `sheet` / `out_rel` config fields and
by the outcome of `run_task` on it: `Except.ok ()` when it completes,
`Except.error e` when it raises an exception with message `e`.  The loop
prints a banner line for the task, runs it inside `try/except Exception`,
prints the warning on failure, and continues; an exception escaping the loop
body would abort the whole run (`Except.error`), which the theorem shows never
happens. -/

structure TaskCfg where
  sheet : Option String
  outRel : Option String
  outcome : Except String Unit

/-- A single quote character (the banner quotes the sheet name). -/
def sq : String := String.mk [Char.ofNat 39]

/-- The banner `\n=== TASK: sheet='{sheet}' | out='{out_rel or ?}' ===`
(Python prints `None` for a missing sheet). -/
def taskHeader (t : TaskCfg) : String :=
  "\n=== TASK: sheet=" ++ sq ++ (match t.sheet with | none => "None" | some s => s) ++
    sq ++ " | out=" ++ sq ++ t.outRel.getD "?" ++ sq ++ " ==="

/-- The warning printed by the `except` clause, `⚠️  SKIP: task failed: {e}`. -/
def taskWarn (e : String) : String := "⚠️  SKIP: task failed: " ++ e

/-- The `for t in tasks` loop: banner, guarded `run_task`, warning on failure;
an uncaught exception would surface as `Except.error`. -/
def mainTaskLoop : List TaskCfg → Except String (List String)
  | [] => Except.ok []
  | t :: rest =>
    let caught : Except String (List String) :=
      match t.outcome with
      | Except.ok _ => Except.ok []
      | Except.error e => Except.ok [taskWarn e]
    match caught with
    | Except.error e => Except.error e
    | Except.ok ls =>
      match mainTaskLoop rest with
      | Except.error e => Except.error e
      | Except.ok more => Except.ok ((taskHeader t :: ls) ++ more)

/-- Tasks whose `run_task` raised. -/
def isFailedTask (t : TaskCfg) : Bool :=
  match t.outcome with
  | Except.error _ => true
  | Except.ok _ => false

/-! ## Claim C6 -/

/-- C6: the per-task loop never aborts: for every task list the loop produces
a log (never an escaping error); every task contributes its banner line (so
every task after a failing one is still attempted), every failing task
contributes its emoji-prefixed warning line, and the log holds exactly one
banner per task plus one warning per failing task. -/
theorem main_loop_catches_task_errors (tasks : List TaskCfg) :
    ∃ log, mainTaskLoop tasks = Except.ok log ∧
      log.length = tasks.length + tasks.countP isFailedTask ∧
      (∀ t ∈ tasks, taskHeader t ∈ log) ∧
      (∀ t ∈ tasks, ∀ e, t.outcome = Except.error e → taskWarn e ∈ log) := by
  induction tasks with
  | nil => exact ⟨[], rfl, rfl, by simp, by simp⟩
  | cons t rest ih =>
    obtain ⟨log, hlog, hlen, hhdr, hwarn⟩ := ih
    cases hout : t.outcome with
    | ok u =>
      cases u
      refine ⟨taskHeader t :: log, ?_, ?_, ?_, ?_⟩
      · rw [mainTaskLoop, hout, hlog]
        rfl
      · simp [hlen, isFailedTask, List.countP_cons, hout]
        omega
      · intro t2 ht2
        rcases List.mem_cons.mp ht2 with rfl | h2
        · simp
        · simp [hhdr t2 h2]
      · intro t2 ht2 e he
        rcases List.mem_cons.mp ht2 with rfl | h2
        · rw [hout] at he
          exact absurd he (by simp)
        · simp [hwarn t2 h2 e he]
    | error e =>
      refine ⟨taskHeader t :: taskWarn e :: log, ?_, ?_, ?_, ?_⟩
      · rw [mainTaskLoop, hout, hlog]
        rfl
      · simp [hlen, isFailedTask, List.countP_cons, hout]
        omega
      · intro t2 ht2
        rcases List.mem_cons.mp ht2 with rfl | h2
        · simp
        · simp [hhdr t2 h2]
      · intro t2 ht2 e2 he2
        rcases List.mem_cons.mp ht2 with rfl | h2
        · rw [hout] at he2
          cases he2
          simp
        · simp [hwarn t2 h2 e2 he2]

/-- C6 witness: a failing task between two successful ones — the loop yields a
log, not an error, and both tasks after the failure are attempted. -/
theorem main_loop_catches_task_errors_witness :
    ∃ log, mainTaskLoop
        [⟨some "Projections", some "data/proj", Except.ok ()⟩,
         ⟨some "Bad Sheet", none, Except.error "boom"⟩,
         ⟨some "Salaries", some "data/sal", Except.ok ()⟩] = Except.ok log ∧
      log.length =
        ([⟨some "Projections", some "data/proj", Except.ok ()⟩,
          ⟨some "Bad Sheet", none, Except.error "boom"⟩,
          ⟨some "Salaries", some "data/sal", Except.ok ()⟩] : List TaskCfg).length +
        ([⟨some "Projections", some "data/proj", Except.ok ()⟩,
          ⟨some "Bad Sheet", none, Except.error "boom"⟩,
          ⟨some "Salaries", some "data/sal", Except.ok ()⟩] : List TaskCfg).countP
            isFailedTask ∧
      (∀ t ∈ ([⟨some "Projections", some "data/proj", Except.ok ()⟩,
          ⟨some "Bad Sheet", none, Except.error "boom"⟩,
          ⟨some "Salaries", some "data/sal", Except.ok ()⟩] : List TaskCfg),
        taskHeader t ∈ log) ∧
      (∀ t ∈ ([⟨some "Projections", some "data/proj", Except.ok ()⟩,
          ⟨some "Bad Sheet", none, Except.error "boom"⟩,
          ⟨some "Salaries", some "data/sal", Except.ok ()⟩] : List TaskCfg),
        ∀ e, t.outcome = Except.error e → taskWarn e ∈ log) :=
  main_loop_catches_task_errors
    [⟨some "Projections", some "data/proj", Except.ok ()⟩,
     ⟨some "Bad Sheet", none, Except.error "boom"⟩,
     ⟨some "Salaries", some "data/sal", Except.ok ()⟩]

/-! ## Exit discipline of main (NFL_Exporter.py lines 1076-1121)

The fatal-precondition structure of `main` is modelled by the predicates it
actually tests, in source order: `_choose_project_root` (the `--project`
directory has `/public`, else the script root has `/public`, else
`sys.exit(1)`), then the workbook and config existence checks, then
`json.loads` of the config (whose failure raises an uncaught exception rather
than calling `sys.exit`), then the `tasks`-is-an-array check
(`sys.exit(1)` when it fails), then the per-task phases, which catch their own
exceptions, and the final `meta.flush()`, which does not. -/

structure NflEnv where
  projectHasPublic : Bool
  rootHasPublic : Bool
  xlsmExists : Bool
  configExists : Bool
  configParses : Bool
  tasksIsArray : Bool
  flushRaises : Bool

inductive MainResult where
  | exit1 : MainResult
  | raised : MainResult
  | completed : MainResult
deriving DecidableEq

/-- How `main` terminates, as a function of the environment. -/
def nflMainResult (e : NflEnv) : MainResult :=
  if !e.projectHasPublic && !e.rootHasPublic then MainResult.exit1
  else if !e.xlsmExists then MainResult.exit1
  else if !e.configExists then MainResult.exit1
  else if !e.configParses then MainResult.raised
  else if !e.tasksIsArray then MainResult.exit1
  else if e.flushRaises then MainResult.raised
  else MainResult.completed

/-- The claim C7 as stated: exit code 1 exactly on a missing workbook, a
missing config, or no project root containing `/public`. -/
def exitOnlyOnMissingSpec (e : NflEnv) : Prop :=
  nflMainResult e = MainResult.exit1 ↔
    (e.xlsmExists = false ∨ e.configExists = false ∨
      (e.projectHasPublic = false ∧ e.rootHasPublic = false))

/-! ## Claim C7 -/

/-- C7 counterexample: with the workbook, the config and the project root all
present but the parsed config's `tasks` value not an array, `main` still calls
`sys.exit(1)`, so the claimed "exactly when" equivalence fails. -/
theorem nfl_exit_counterexample :
    nflMainResult ⟨true, true, true, true, true, false, false⟩ = MainResult.exit1 ∧
    ¬ exitOnlyOnMissingSpec ⟨true, true, true, true, true, false, false⟩ := by
  constructor
  · rfl
  · intro h
    rcases h.mp rfl with h1 | h1 | h1 <;> simp at h1

/-- C7 amended: `main` calls `sys.exit(1)` exactly when no project root with
`/public` can be found, the workbook path does not exist, the config path does
not exist, or the config parses but its `tasks` value is not an array.  (An
unparseable config or a failing final meta write ends the run with an uncaught
exception instead of `sys.exit(1)`.) -/
theorem nfl_exit1_iff (e : NflEnv) :
    nflMainResult e = MainResult.exit1 ↔
      ((e.projectHasPublic = false ∧ e.rootHasPublic = false) ∨
        e.xlsmExists = false ∨ e.configExists = false ∨
        (e.configParses = true ∧ e.tasksIsArray = false)) := by
  obtain ⟨a, b, c, d, p, q, r⟩ := e
  cases a <;> cases b <;> cases c <;> cases d <;> cases p <;> cases q <;> cases r <;> decide

/-! ## Resource discipline of main (NFL_Exporter.py lines 1105-1160)

`main` stages a temporary copy of the workbook, runs every phase on the staged
copy inside `try: ... finally: shutil.rmtree(temp_dir)`, and every reader
(`read_literal_table`, `run_cheatsheets`, `run_gameboard`,
`_build_kickoff_map_from_workbook`) opens its workbook handle on the staged
path and closes it in its own `finally` block.  The run is modelled as the
trace of resource events it emits; each Boolean flag says whether the
corresponding phase body completed or raised (a raising body emits no read
events but its `finally` still closes the handle, and a phase exception is
caught in `main`, so later phases still run). -/

inductive Ev where
  | openWb : Bool → Ev
  | closeWb : Ev
  | readSheet : Bool → Ev
  | rmTemp : Ev
deriving DecidableEq

/-- `read_literal_table` on the staged workbook: open, read (unless the body
raises first), close in `finally`. -/
def readLiteralTableTrace (ok : Bool) : List Ev :=
  Ev.openWb true :: (if ok then [Ev.readSheet true] else []) ++ [Ev.closeWb]

/-- `run_cheatsheets` on the staged workbook. -/
def runCheatsheetsTrace (ok : Bool) : List Ev :=
  Ev.openWb true :: (if ok then [Ev.readSheet true] else []) ++ [Ev.closeWb]

/-- `run_gameboard` on the staged workbook. -/
def gameboardTrace (ok : Bool) : List Ev :=
  Ev.openWb true :: (if ok then [Ev.readSheet true] else []) ++ [Ev.closeWb]

/-- `_build_kickoff_map_from_workbook`: opens the staged workbook to pick the
salary sheet and, when one is found, reads it through a nested
`read_literal_table`; its own handle is closed in `finally`. -/
def kickoffMapTrace (sheetFound rltOk : Bool) : List Ev :=
  Ev.openWb true :: (if sheetFound then readLiteralTableTrace rltOk else []) ++ [Ev.closeWb]

/-- The event trace of `main`: when the config loads, the per-task reads, the
cheat sheets, the optional player pool (a cheat-sheet run plus a kickoff-map
enrichment), the gameboard and the kickoff map all run on the staged copy; in
every case the `finally` removes the temp directory. -/
def nflMainTrace (cfgOk : Bool) (taskOks : List Bool)
    (csOk ppPresent ppKickFound ppKickOk gbOk kickFound kickOk : Bool) : List Ev :=
  (if cfgOk then
    (taskOks.flatMap readLiteralTableTrace)
      ++ runCheatsheetsTrace csOk
      ++ (if ppPresent then
            runCheatsheetsTrace true ++ kickoffMapTrace ppKickFound ppKickOk
          else [])
      ++ gameboardTrace gbOk
      ++ kickoffMapTrace kickFound kickOk
  else []) ++ [Ev.rmTemp]

/-- An event respects the staging discipline when any workbook it opens or
reads is the staged copy. -/
def evStaged : Ev → Bool
  | Ev.openWb b => b
  | Ev.readSheet b => b
  | _ => true

def isOpenEv : Ev → Bool
  | Ev.openWb _ => true
  | _ => false

def isCloseEv : Ev → Bool
  | Ev.closeWb => true
  | _ => false

theorem reader_balanced_staged (ok : Bool) :
    (readLiteralTableTrace ok).countP isOpenEv = (readLiteralTableTrace ok).countP isCloseEv ∧
    (readLiteralTableTrace ok).all evStaged = true := by
  cases ok <;> decide

theorem cheatsheets_balanced_staged (ok : Bool) :
    (runCheatsheetsTrace ok).countP isOpenEv = (runCheatsheetsTrace ok).countP isCloseEv ∧
    (runCheatsheetsTrace ok).all evStaged = true := by
  cases ok <;> decide

theorem gameboard_balanced_staged (ok : Bool) :
    (gameboardTrace ok).countP isOpenEv = (gameboardTrace ok).countP isCloseEv ∧
    (gameboardTrace ok).all evStaged = true := by
  cases ok <;> decide

theorem kickoff_balanced_staged (sheetFound rltOk : Bool) :
    (kickoffMapTrace sheetFound rltOk).countP isOpenEv =
      (kickoffMapTrace sheetFound rltOk).countP isCloseEv ∧
    (kickoffMapTrace sheetFound rltOk).all evStaged = true := by
  cases sheetFound <;> cases rltOk <;> decide

theorem tasks_balanced_staged (taskOks : List Bool) :
    (taskOks.flatMap readLiteralTableTrace).countP isOpenEv =
      (taskOks.flatMap readLiteralTableTrace).countP isCloseEv ∧
    (taskOks.flatMap readLiteralTableTrace).all evStaged = true := by
  induction taskOks with
  | nil => decide
  | cons ok rest ih =>
    obtain ⟨ih1, ih2⟩ := ih
    obtain ⟨h1, h2⟩ := reader_balanced_staged ok
    refine ⟨?_, ?_⟩
    · simp only [List.flatMap_cons, List.countP_append, h1, ih1]
    · simp only [List.flatMap_cons, List.all_append, h2, ih2, Bool.and_self]

/-! ## Claim C8 -/

/-- C8: on every run that stages the workbook copy, whatever combination of
phase successes and failures occurs, the temp directory is removed as the very
last event (the `finally` runs on normal completion and on escaping
exceptions alike), every workbook handle that is opened is closed (counts
match, because each reader closes in its own `finally`), and every open/read
event targets the staged copy, never the original file. -/
theorem nfl_main_resource_discipline (cfgOk : Bool) (taskOks : List Bool)
    (csOk ppPresent ppKickFound ppKickOk gbOk kickFound kickOk : Bool) :
    (nflMainTrace cfgOk taskOks csOk ppPresent ppKickFound ppKickOk gbOk
        kickFound kickOk).getLast? = some Ev.rmTemp ∧
    (nflMainTrace cfgOk taskOks csOk ppPresent ppKickFound ppKickOk gbOk
        kickFound kickOk).countP isOpenEv =
      (nflMainTrace cfgOk taskOks csOk ppPresent ppKickFound ppKickOk gbOk
        kickFound kickOk).countP isCloseEv ∧
    (nflMainTrace cfgOk taskOks csOk ppPresent ppKickFound ppKickOk gbOk
        kickFound kickOk).all evStaged = true := by
  unfold nflMainTrace
  obtain ⟨ht1, ht2⟩ := tasks_balanced_staged taskOks
  obtain ⟨hc1, hc2⟩ := cheatsheets_balanced_staged csOk
  obtain ⟨hg1, hg2⟩ := gameboard_balanced_staged gbOk
  obtain ⟨hk1, hk2⟩ := kickoff_balanced_staged kickFound kickOk
  obtain ⟨hp1, hp2⟩ := kickoff_balanced_staged ppKickFound ppKickOk
  obtain ⟨hq1, hq2⟩ := cheatsheets_balanced_staged true
  refine ⟨List.getLast?_concat _, ?_, ?_⟩
  · cases cfgOk <;> cases ppPresent <;>
      simp [List.countP_append,
        show List.countP isOpenEv [Ev.rmTemp] = 0 from rfl,
        show List.countP isCloseEv [Ev.rmTemp] = 0 from rfl] <;> omega
  · cases cfgOk <;> cases ppPresent <;>
      simp [List.all_append, ht2, hc2, hg2, hk2, hp2, hq2,
        show evStaged Ev.rmTemp = true from rfl]

end DfsExport